import Mathlib

/-!
Shallow embedding of the expression-tree engine in `src/LR6_TRPO/LR6_TRPO.cpp`.

The C++ program models arithmetic expressions as a tree of four node kinds
(`Number`, `BinaryOperation`, `FunctionCall`, `Variable`), evaluates them over
`double`, and rewrites trees with two visitors: `CopySyntaxTree` (deep copy)
and `FoldConstants` (bottom-up constant folding).  We embed `double` as `ℝ`:
every arithmetic operation performed by the program (`+`, `-`, `/`, `*`,
`sqrt`, `fabs`) is mapped to the corresponding real operation.

The operator tag of a `BinaryOperation` is a C++ `int` (the enum constants are
the character codes of `+`, `-`, `/`, `*`), embedded as `Int`.  The `switch`
in `BinaryOperation::evaluate` has no `default` arm and the function has no
return statement after it, so for any other tag control falls off the end of
a value-returning function; we model the switch as an `Option ℝ`-valued
function that returns `none` exactly in that case, and `evaluate` propagates
the `none`.
-/

namespace LR6

/-- Operator tag `BinaryOperation::PLUS`, the character code of `+`. -/
def PLUS : Int := 43

/-- Operator tag `BinaryOperation::MINUS`, the character code of `-`. -/
def MINUS : Int := 45

/-- Operator tag `BinaryOperation::DIV`, the character code of `/`. -/
def DIV : Int := 47

/-- Operator tag `BinaryOperation::MUL`, the character code of `*`. -/
def MUL : Int := 42

/-- The expression tree: one constructor per concrete subclass of the C++
`Expression`.  Children are direct subterms (the C++ nodes own their children
outright, and the constructors assert that child pointers are non-null, so a
constructed tree always has all children present). -/
inductive Expression : Type
  | Number : ℝ → Expression
  | BinaryOperation : Expression → Int → Expression → Expression
  | FunctionCall : String → Expression → Expression
  | Variable : String → Expression

namespace Expression

/-- The `switch (op_)` in `BinaryOperation::evaluate`: the four enum tags
return the arithmetic result; any other tag falls off the end of the
function (undefined behaviour), modelled as `none`. -/
noncomputable def evalOpSwitch (op : Int) (l r : ℝ) : Option ℝ :=
  if op = PLUS then some (l + r)
  else if op = MINUS then some (l - r)
  else if op = DIV then some (l / r)
  else if op = MUL then some (l * r)
  else none

/-- The method `Expression::evaluate` for each node kind: a `Number` returns its value,
a `BinaryOperation` evaluates left then right and applies the switch, a
`FunctionCall` applies `sqrt` when its name is `"sqrt"` and `fabs`
otherwise, a `Variable` returns `0.0`. -/
noncomputable def evaluate : Expression → Option ℝ
  | Number v => some v
  | BinaryOperation l op r =>
      (evaluate l).bind fun a => (evaluate r).bind fun b => evalOpSwitch op a b
  | FunctionCall name a =>
      (evaluate a).map fun c => if name = "sqrt" then Real.sqrt c else |c|
  | Variable _ => some 0

/-- The `CopySyntaxTree` visitor: every case rebuilds a brand-new node of the
same kind from recursively copied children. -/
def copySyntaxTree : Expression → Expression
  | Number v => Number v
  | BinaryOperation l op r => BinaryOperation (copySyntaxTree l) op (copySyntaxTree r)
  | FunctionCall name a => FunctionCall name (copySyntaxTree a)
  | Variable n => Variable n

/-- The check `dynamic_cast<Number*>`: the value when the node is a `Number`,
otherwise `none`. -/
def asNumber : Expression → Option ℝ
  | Number v => some v
  | _ => none

/-- The tail of `FoldConstants::transformBinaryOperation` once the two
children have been transformed to `L` and `R`: when both are `Number`s the
intermediate node `newBinop = BinaryOperation L op R` is evaluated (its
children being literals, that evaluation is exactly the switch applied to
their values) and the result wrapped in a fresh `Number`; otherwise the
intermediate node itself is returned. -/
noncomputable def foldBinop (L : Expression) (op : Int) (R : Expression) : Option Expression :=
  match asNumber L, asNumber R with
  | some a, some b => (evalOpSwitch op a b).map Number
  | _, _ => some (BinaryOperation L op R)

/-- The tail of `FoldConstants::transformFunctionCall` once the argument has
been transformed to `A`: when `A` is a `Number` the intermediate node
`newFcall = FunctionCall name A` is evaluated (`sqrt` or `fabs` of the
literal's value) and wrapped in a fresh `Number`; otherwise the intermediate
node itself is returned. -/
noncomputable def foldCall (name : String) (A : Expression) : Expression :=
  match asNumber A with
  | some c => Number (if name = "sqrt" then Real.sqrt c else |c|)
  | none => FunctionCall name A

/-- The `FoldConstants` visitor: numbers and variables are copied as-is; a
`BinaryOperation` first transforms both children, a `FunctionCall` its
argument, then `foldBinop` / `foldCall` decide whether to collapse.  The
result is `none` exactly when some collapsed binary node had an operator tag
outside the four enum values (where the C++ evaluation is undefined). -/
noncomputable def foldConstants : Expression → Option Expression
  | Number v => some (Number v)
  | BinaryOperation l op r =>
      (foldConstants l).bind fun L => (foldConstants r).bind fun R => foldBinop L op R
  | FunctionCall name a => (foldConstants a).map fun A => foldCall name A
  | Variable n => some (Variable n)

/-- Whether the node is a `Number` (a literal). -/
def isNumber : Expression → Bool
  | Number _ => true
  | _ => false

/-- Whether a `Variable` node occurs anywhere in the tree. -/
def containsVariable : Expression → Bool
  | Number _ => false
  | BinaryOperation l _ r => containsVariable l || containsVariable r
  | FunctionCall _ a => containsVariable a
  | Variable _ => true

/-- Whether an operator tag is one of the four enum constants. -/
def validOp (op : Int) : Bool :=
  op == PLUS || op == MINUS || op == DIV || op == MUL

/-- The construction invariant every tree built through the C++ constructors
satisfies: every operator tag is one of the four enum constants and every
function name is `"sqrt"` or `"abs"` (the `FunctionCall` constructor asserts
the latter; the spec's data model draws the operator from the enumeration). -/
def wellFormed : Expression → Bool
  | Number _ => true
  | BinaryOperation l op r => validOp op && wellFormed l && wellFormed r
  | FunctionCall name a => (name == "sqrt" || name == "abs") && wellFormed a
  | Variable _ => true

/-- Whether two nodes are of the same kind (same concrete subclass). -/
def sameKind : Expression → Expression → Bool
  | Number _, Number _ => true
  | BinaryOperation _ _ _, BinaryOperation _ _ _ => true
  | FunctionCall _ _, FunctionCall _ _ => true
  | Variable _, Variable _ => true
  | _, _ => false

/-- A step from a node to one of its children. -/
inductive Dir : Type
  | left : Dir
  | right : Dir
  | arg : Dir

/-- The subtree reached from `t` by following a path of child steps. -/
def subtreeAt : Expression → List Dir → Option Expression
  | t, [] => some t
  | BinaryOperation l _ _, Dir.left :: p => subtreeAt l p
  | BinaryOperation _ _ r, Dir.right :: p => subtreeAt r p
  | FunctionCall _ a, Dir.arg :: p => subtreeAt a p
  | _, _ => none

end Expression

open Expression

/-- The two failure kinds of the construction API (§7 of the spec): a missing
child operand, or a `FunctionCall` name outside `{"sqrt", "abs"}`. -/
inductive ConstructError : Type
  | invalidOperand : ConstructError
  | unsupportedFunction : ConstructError

/-- The `BinaryOperation` constructor: `assert(left_ && right_)` rejects an
absent child; the operator tag is stored unchecked. -/
def mkBinaryOperation (left : Option Expression) (op : Int) (right : Option Expression) :
    Except ConstructError Expression :=
  match left, right with
  | some l, some r => Except.ok (BinaryOperation l op r)
  | _, _ => Except.error ConstructError.invalidOperand

/-- The `FunctionCall` constructor: `assert(arg_)` rejects an absent argument
first, then `assert(name_ == "sqrt" || name_ == "abs")` rejects any other
function name. -/
def mkFunctionCall (name : String) (arg : Option Expression) :
    Except ConstructError Expression :=
  match arg with
  | none => Except.error ConstructError.invalidOperand
  | some a =>
      if name = "sqrt" ∨ name = "abs" then Except.ok (FunctionCall name a)
      else Except.error ConstructError.unsupportedFunction

/-- The tree of the spec's concrete scenario 2:
`Abs(Mul(2, Sqrt(Sub(32, 16))))`. -/
noncomputable def scenarioTwo : Expression :=
  FunctionCall "abs"
    (BinaryOperation (Number 2) MUL
      (FunctionCall "sqrt" (BinaryOperation (Number 32) MINUS (Number 16))))

/-- The tree of the spec's concrete scenario 3:
`Abs(Mul(Variable("var"), Sqrt(Sub(32, 16))))` — the tree the program's
`main` builds. -/
noncomputable def scenarioThree : Expression :=
  FunctionCall "abs"
    (BinaryOperation (Variable "var") MUL
      (FunctionCall "sqrt" (BinaryOperation (Number 32) MINUS (Number 16))))

/-! ### Helper lemmas -/

lemma asNumber_eq_some {t : Expression} {a : ℝ} : asNumber t = some a ↔ t = Number a := by
  cases t <;> simp [asNumber]

lemma isNumber_false_asNumber {t : Expression} (h : isNumber t = false) : asNumber t = none := by
  cases t <;> simp_all [isNumber, asNumber]

lemma evalOpSwitch_isSome {op : Int} (h : validOp op = true) (a b : ℝ) :
    (evalOpSwitch op a b).isSome = true := by
  simp only [validOp, Bool.or_eq_true, beq_iff_eq] at h
  rcases h with ((h | h) | h) | h <;>
    simp [evalOpSwitch, h, PLUS, MINUS, DIV, MUL]

lemma foldBinop_isSome {op : Int} (h : validOp op = true) (L R : Expression) :
    (foldBinop L op R).isSome = true := by
  cases hL : asNumber L with
  | none => simp [foldBinop, hL]
  | some a =>
    cases hR : asNumber R with
    | none => simp [foldBinop, hL, hR]
    | some b => simpa [foldBinop, hL, hR] using evalOpSwitch_isSome h a b

lemma foldConstants_binop_elim {l r t' : Expression} {op : Int}
    (h : foldConstants (BinaryOperation l op r) = some t') :
    ∃ L R, foldConstants l = some L ∧ foldConstants r = some R ∧ foldBinop L op R = some t' := by
  cases hl : foldConstants l with
  | none => simp [foldConstants, hl] at h
  | some L =>
    cases hr : foldConstants r with
    | none => simp [foldConstants, hl, hr] at h
    | some R => exact ⟨L, R, rfl, rfl, by simpa [foldConstants, hl, hr] using h⟩

lemma foldConstants_call_elim {a t' : Expression} {name : String}
    (h : foldConstants (FunctionCall name a) = some t') :
    ∃ A, foldConstants a = some A ∧ t' = foldCall name A := by
  cases ha : foldConstants a with
  | none => simp [foldConstants, ha] at h
  | some A => exact ⟨A, rfl, by simpa [foldConstants, ha] using h.symm⟩

lemma foldBinop_elim {L R t' : Expression} {op : Int} (h : foldBinop L op R = some t') :
    (∃ a b v, L = Number a ∧ R = Number b ∧ evalOpSwitch op a b = some v ∧ t' = Number v)
    ∨ ((asNumber L = none ∨ asNumber R = none) ∧ t' = BinaryOperation L op R) := by
  cases hL : asNumber L with
  | none =>
    refine Or.inr ⟨Or.inl rfl, ?_⟩
    simpa [foldBinop, hL] using h.symm
  | some a =>
    cases hR : asNumber R with
    | none =>
      refine Or.inr ⟨Or.inr rfl, ?_⟩
      simpa [foldBinop, hL, hR] using h.symm
    | some b =>
      simp only [foldBinop, hL, hR, Option.map_eq_some'] at h
      obtain ⟨v, hv, rfl⟩ := h
      exact Or.inl ⟨a, b, v, asNumber_eq_some.mp hL, asNumber_eq_some.mp hR, hv, rfl⟩

lemma sqrt_thirtytwo_sub_sixteen : Real.sqrt ((32 : ℝ) - 16) = 4 := by
  rw [show ((32 : ℝ) - 16) = (4 : ℝ) ^ 2 by norm_num,
    Real.sqrt_sq (by norm_num : (0 : ℝ) ≤ 4)]

lemma evaluate_scenarioTwo_eq : evaluate scenarioTwo = some 8 := by
  simp [scenarioTwo, evaluate, evalOpSwitch, PLUS, MINUS, DIV, MUL,
    sqrt_thirtytwo_sub_sixteen]
  norm_num

/-! ### Claims -/

/-- C3: the `CopySyntaxTree` transform rebuilds the tree node by node — in the
embedding the rebuilt tree is equal to the input as a value, every node being
a fresh constructor application — so evaluating the copy yields exactly the
value of the original. -/
theorem copySyntaxTree_preserves (t : Expression) :
    copySyntaxTree t = t ∧ evaluate (copySyntaxTree t) = evaluate t := by
  have h : copySyntaxTree t = t := by
    induction t with
    | Number v => rfl
    | BinaryOperation l op r ihl ihr => simp [copySyntaxTree, ihl, ihr]
    | FunctionCall name a iha => simp [copySyntaxTree, iha]
    | Variable n => rfl
  exact ⟨h, by rw [h]⟩

/-- C7: evaluating a `Variable` returns `0.0` whatever its identifier, and
consequently the scenario-3 tree `Abs(Mul(Variable "var", Sqrt(Sub(32, 16))))`
evaluates to `0.0`. -/
theorem variable_evaluates_to_zero :
    (∀ s, evaluate (Variable s) = some 0)
    ∧ evaluate scenarioThree = some 0 := by
  refine ⟨fun s => rfl, ?_⟩
  simp [scenarioThree, evaluate, evalOpSwitch, PLUS, MINUS, DIV, MUL]

/-- C8 (counterexample): the scenario-2 tree `Abs(Mul(2, Sqrt(Sub(32, 16))))`
evaluates to `8.0`, not `16.0` as the claim states: `sqrt(32-16) = 4`,
`2 * 4 = 8`, `abs(8) = 8`. -/
theorem scenarioTwo_not_sixteen :
    evaluate scenarioTwo = some 8 ∧ evaluate scenarioTwo ≠ some 16 := by
  refine ⟨evaluate_scenarioTwo_eq, ?_⟩
  rw [evaluate_scenarioTwo_eq]
  intro h
  exact absurd (Option.some.inj h) (by norm_num)

/-- C8 (amended): evaluating the tree `Abs(Mul(2, Sqrt(Sub(32, 16))))` — i.e.
`Call "abs" (BinaryOp (Literal 2) Mul (Call "sqrt" (BinaryOp (Literal 32) Sub
(Literal 16))))` — returns `8.0`. -/
theorem scenarioTwo_value : evaluate scenarioTwo = some 8 :=
  evaluate_scenarioTwo_eq

/-- C1: on a tree with no `Variable` node anywhere (and operator tags from the
enum, as the construction invariant guarantees), `FoldConstants` collapses the
whole tree to a single `Number` holding exactly `evaluate t`. -/
theorem foldConstants_complete (t : Expression) (hwf : wellFormed t = true)
    (hnv : containsVariable t = false) :
    ∃ v, foldConstants t = some (Number v) ∧ evaluate t = some v := by
  induction t with
  | Number v => exact ⟨v, rfl, rfl⟩
  | BinaryOperation l op r ihl ihr =>
    simp only [wellFormed, Bool.and_eq_true] at hwf
    obtain ⟨⟨hop, hl⟩, hr⟩ := hwf
    simp only [containsVariable, Bool.or_eq_false_iff] at hnv
    obtain ⟨va, hfl, hel⟩ := ihl hl hnv.1
    obtain ⟨vb, hfr, her⟩ := ihr hr hnv.2
    obtain ⟨v, hv⟩ := Option.isSome_iff_exists.mp (evalOpSwitch_isSome hop va vb)
    refine ⟨v, ?_, ?_⟩
    · simp [foldConstants, hfl, hfr, foldBinop, asNumber, hv]
    · simp [evaluate, hel, her, hv]
  | FunctionCall name a iha =>
    simp only [wellFormed, Bool.and_eq_true] at hwf
    simp only [containsVariable] at hnv
    obtain ⟨c, hfa, hea⟩ := iha hwf.2 hnv
    refine ⟨if name = "sqrt" then Real.sqrt c else |c|, ?_, ?_⟩
    · simp [foldConstants, hfa, foldCall, asNumber]
    · simp [evaluate, hea]
  | Variable n => simp [containsVariable] at hnv

/-- Witness for C1 at the concrete variable-free tree `2 + 3`. -/
theorem foldConstants_complete_witness :
    wellFormed (BinaryOperation (Number 2) PLUS (Number 3)) = true
    ∧ containsVariable (BinaryOperation (Number 2) PLUS (Number 3)) = false
    ∧ ∃ v, foldConstants (BinaryOperation (Number 2) PLUS (Number 3)) = some (Number v)
        ∧ evaluate (BinaryOperation (Number 2) PLUS (Number 3)) = some v :=
  ⟨rfl, rfl, foldConstants_complete (BinaryOperation (Number 2) PLUS (Number 3)) rfl rfl⟩

/-- C2: whenever `FoldConstants` returns a tree, that tree evaluates to
exactly the same value as the input — the fold only evaluates already-literal
subtrees early, applying the very operations evaluation would apply, and
never reorders operands. -/
theorem evaluate_foldConstants (t t' : Expression) (h : foldConstants t = some t') :
    evaluate t' = evaluate t := by
  induction t generalizing t' with
  | Number v =>
    simp only [foldConstants, Option.some.injEq] at h
    rw [← h]
  | Variable n =>
    simp only [foldConstants, Option.some.injEq] at h
    rw [← h]
  | BinaryOperation l op r ihl ihr =>
    obtain ⟨L, R, hl, hr, hb⟩ := foldConstants_binop_elim h
    have el := ihl L hl
    have er := ihr R hr
    rcases foldBinop_elim hb with ⟨a, b, v, rfl, rfl, hv, rfl⟩ | ⟨-, rfl⟩
    · simp only [evaluate] at el er ⊢
      rw [← el, ← er]
      simpa [evaluate] using hv.symm
    · simp [evaluate, el, er]
  | FunctionCall name a iha =>
    obtain ⟨A, hA, rfl⟩ := foldConstants_call_elim h
    have eA := iha A hA
    cases hN : asNumber A with
    | some c =>
      obtain rfl := asNumber_eq_some.mp hN
      have hfc : foldCall name (Number c) = Number (if name = "sqrt" then Real.sqrt c else |c|) := rfl
      have eA' : some c = evaluate a := eA
      rw [hfc]
      simp [evaluate, ← eA']
    | none => simp [foldCall, hN, evaluate, eA]

/-- Witness for C2 at the concrete tree `1 + 2`, which folds to the literal
`1 + 2`. -/
theorem evaluate_foldConstants_witness :
    evaluate (Number ((1 : ℝ) + 2)) = evaluate (BinaryOperation (Number 1) PLUS (Number 2)) :=
  evaluate_foldConstants (BinaryOperation (Number 1) PLUS (Number 2)) (Number (1 + 2)) rfl

/-- C5: `FoldConstants` is idempotent — its output folds to itself, with no
further reduction (so in particular `fold (fold t)` evaluates exactly as
`fold t`). -/
theorem foldConstants_idem (t t' : Expression) (h : foldConstants t = some t') :
    foldConstants t' = some t' := by
  induction t generalizing t' with
  | Number v =>
    simp only [foldConstants, Option.some.injEq] at h
    rw [← h]
    rfl
  | Variable n =>
    simp only [foldConstants, Option.some.injEq] at h
    rw [← h]
    rfl
  | BinaryOperation l op r ihl ihr =>
    obtain ⟨L, R, hl, hr, hb⟩ := foldConstants_binop_elim h
    have hL := ihl L hl
    have hR := ihr R hr
    rcases foldBinop_elim hb with ⟨a, b, v, rfl, rfl, hv, rfl⟩ | ⟨hnum, rfl⟩
    · rfl
    · rcases hnum with hn | hn
      · simp [foldConstants, hL, hR, foldBinop, hn]
      · cases hL2 : asNumber L with
        | none => simp [foldConstants, hL, hR, foldBinop, hL2]
        | some a => simp [foldConstants, hL, hR, foldBinop, hL2, hn]
  | FunctionCall name a iha =>
    obtain ⟨A, hA, rfl⟩ := foldConstants_call_elim h
    have hA2 := iha A hA
    cases hN : asNumber A with
    | some c =>
      obtain rfl := asNumber_eq_some.mp hN
      rw [foldCall, hN]
      rfl
    | none =>
      rw [foldCall, hN]
      simp [foldConstants, hA2, foldCall, hN]

/-- Witness for C5: the tree `(1 + 2) * x` folds to `3 * x` (the literal kept
as the unevaluated real `1 + 2`), and that output folds to itself. -/
theorem foldConstants_idem_witness :
    foldConstants (BinaryOperation (Number ((1 : ℝ) + 2)) MUL (Variable "x")) =
      some (BinaryOperation (Number ((1 : ℝ) + 2)) MUL (Variable "x")) :=
  foldConstants_idem
    (BinaryOperation (BinaryOperation (Number 1) PLUS (Number 2)) MUL (Variable "x"))
    (BinaryOperation (Number ((1 : ℝ) + 2)) MUL (Variable "x")) rfl

lemma subtreeAt_nil (t : Expression) : subtreeAt t [] = some t := by
  cases t <;> rfl

lemma containsVariable_of_subtreeAt :
    ∀ (t : Expression) (p : List Dir) (s : Expression),
      subtreeAt t p = some s → containsVariable s = true → containsVariable t = true := by
  intro t
  induction t with
  | Number v =>
    intro p s h hs
    cases p with
    | nil =>
      obtain rfl := Option.some.inj h
      exact hs
    | cons d q => cases d <;> simp [subtreeAt] at h
  | BinaryOperation l op r ihl ihr =>
    intro p s h hs
    cases p with
    | nil =>
      obtain rfl := Option.some.inj h
      exact hs
    | cons d q =>
      cases d with
      | left => simp [containsVariable, ihl q s h hs]
      | right => simp [containsVariable, ihr q s h hs]
      | arg => simp [subtreeAt] at h
  | FunctionCall name a iha =>
    intro p s h hs
    cases p with
    | nil =>
      obtain rfl := Option.some.inj h
      exact hs
    | cons d q =>
      cases d with
      | left => simp [subtreeAt] at h
      | right => simp [subtreeAt] at h
      | arg => simp [containsVariable, iha q s h hs]
  | Variable n =>
    intro p s h hs
    cases p with
    | nil =>
      obtain rfl := Option.some.inj h
      exact hs
    | cons d q => cases d <;> simp [subtreeAt] at h

lemma foldConstants_sameKind :
    ∀ (t t' : Expression), containsVariable t = true → foldConstants t = some t' →
      sameKind t t' = true ∧ isNumber t' = false := by
  intro t
  induction t with
  | Number v => intro t' hc; simp [containsVariable] at hc
  | BinaryOperation l op r ihl ihr =>
    intro t' hc hf
    obtain ⟨L, R, hl, hr, hb⟩ := foldConstants_binop_elim hf
    rcases foldBinop_elim hb with ⟨a, b, v, rfl, rfl, hv, rfl⟩ | ⟨-, rfl⟩
    · simp only [containsVariable, Bool.or_eq_true] at hc
      rcases hc with hc | hc
      · exact absurd (ihl _ hc hl).2 (by simp [isNumber])
      · exact absurd (ihr _ hc hr).2 (by simp [isNumber])
    · exact ⟨rfl, rfl⟩
  | FunctionCall name a iha =>
    intro t' hc hf
    obtain ⟨A, hA, rfl⟩ := foldConstants_call_elim hf
    simp only [containsVariable] at hc
    have hk := iha A hc hA
    cases hN : asNumber A with
    | some c => exact absurd hk.2 (by simp [asNumber_eq_some.mp hN, isNumber])
    | none =>
      rw [foldCall, hN]
      exact ⟨rfl, rfl⟩
  | Variable n =>
    intro t' _ hf
    obtain rfl := Option.some.inj hf
    exact ⟨rfl, rfl⟩

/-- C4: folding never folds across a `Variable`.  Whenever a subtree `s`
reached by a path `p` contains a `Variable`, the folded tree has, at that same
path, a node of the same kind as `s` and not a literal (in particular, with
the empty path: the folded result of a tree containing a `Variable` is never
a bare `Number`).  Concretely, folding
`Abs(Mul(Variable "var", Sqrt(Sub(32, 16))))` yields
`Call "abs" (BinaryOp (Variable "var") Mul (Literal 4.0))`. -/
theorem foldConstants_blocked_by_variable :
    (∀ (t t' : Expression) (p : List Dir) (s : Expression),
        foldConstants t = some t' → subtreeAt t p = some s →
        containsVariable s = true →
        ∃ s', subtreeAt t' p = some s' ∧ sameKind s s' = true ∧ isNumber s' = false)
    ∧ foldConstants scenarioThree =
        some (FunctionCall "abs" (BinaryOperation (Variable "var") MUL (Number 4))) := by
  constructor
  · intro t
    induction t with
    | Number v =>
      intro t' p s hf hp hs
      cases p with
      | nil =>
        obtain rfl := Option.some.inj hp
        simp [containsVariable] at hs
      | cons d q => cases d <;> simp [subtreeAt] at hp
    | BinaryOperation l op r ihl ihr =>
      intro t' p s hf hp hs
      obtain ⟨L, R, hl, hr, hb⟩ := foldConstants_binop_elim hf
      cases p with
      | nil =>
        obtain rfl := Option.some.inj hp
        obtain ⟨hk, hn⟩ := foldConstants_sameKind _ _ hs hf
        exact ⟨t', subtreeAt_nil t', hk, hn⟩
      | cons d q =>
        cases d with
        | left =>
          simp only [subtreeAt] at hp
          have hcl : containsVariable l = true := containsVariable_of_subtreeAt l q s hp hs
          have hLn : isNumber L = false := (foldConstants_sameKind l L hcl hl).2
          rcases foldBinop_elim hb with ⟨a, b, v, rfl, rfl, -, rfl⟩ | ⟨-, rfl⟩
          · simp [isNumber] at hLn
          · obtain ⟨s', hs', hk', hn'⟩ := ihl L q s hl hp hs
            exact ⟨s', by simpa [subtreeAt] using hs', hk', hn'⟩
        | right =>
          simp only [subtreeAt] at hp
          have hcr : containsVariable r = true := containsVariable_of_subtreeAt r q s hp hs
          have hRn : isNumber R = false := (foldConstants_sameKind r R hcr hr).2
          rcases foldBinop_elim hb with ⟨a, b, v, rfl, rfl, -, rfl⟩ | ⟨-, rfl⟩
          · simp [isNumber] at hRn
          · obtain ⟨s', hs', hk', hn'⟩ := ihr R q s hr hp hs
            exact ⟨s', by simpa [subtreeAt] using hs', hk', hn'⟩
        | arg => simp [subtreeAt] at hp
    | FunctionCall name a iha =>
      intro t' p s hf hp hs
      obtain ⟨A, hA, rfl⟩ := foldConstants_call_elim hf
      cases p with
      | nil =>
        obtain rfl := Option.some.inj hp
        have hf' : foldConstants (FunctionCall name a) = some (foldCall name A) := by
          simp [foldConstants, hA]
        obtain ⟨hk, hn⟩ := foldConstants_sameKind _ _ hs hf'
        exact ⟨foldCall name A, subtreeAt_nil _, hk, hn⟩
      | cons d q =>
        cases d with
        | left => simp [subtreeAt] at hp
        | right => simp [subtreeAt] at hp
        | arg =>
          simp only [subtreeAt] at hp
          have hca : containsVariable a = true := containsVariable_of_subtreeAt a q s hp hs
          have hAn : isNumber A = false := (foldConstants_sameKind a A hca hA).2
          obtain ⟨s', hs', hk', hn'⟩ := iha A q s hA hp hs
          rw [foldCall, isNumber_false_asNumber hAn]
          exact ⟨s', by simpa [subtreeAt] using hs', hk', hn'⟩
    | Variable n =>
      intro t' p s hf hp hs
      obtain rfl := Option.some.inj hf
      cases p with
      | nil =>
        obtain rfl := Option.some.inj hp
        exact ⟨Variable n, rfl, rfl, rfl⟩
      | cons d q => cases d <;> simp [subtreeAt] at hp
  · simp [scenarioThree, foldConstants, foldBinop, foldCall, asNumber, evalOpSwitch,
      PLUS, MINUS, DIV, MUL, sqrt_thirtytwo_sub_sixteen]

lemma wellFormed_total :
    ∀ t : Expression, wellFormed t = true →
      (evaluate t).isSome = true ∧ (foldConstants t).isSome = true := by
  intro t
  induction t with
  | Number v => intro _; exact ⟨rfl, rfl⟩
  | BinaryOperation l op r ihl ihr =>
    intro h
    simp only [wellFormed, Bool.and_eq_true] at h
    obtain ⟨⟨hop, hl⟩, hr⟩ := h
    obtain ⟨hel, hfl⟩ := ihl hl
    obtain ⟨her, hfr⟩ := ihr hr
    obtain ⟨a, ha⟩ := Option.isSome_iff_exists.mp hel
    obtain ⟨b, hb⟩ := Option.isSome_iff_exists.mp her
    obtain ⟨L, hL⟩ := Option.isSome_iff_exists.mp hfl
    obtain ⟨R, hR⟩ := Option.isSome_iff_exists.mp hfr
    constructor
    · simpa [evaluate, ha, hb] using evalOpSwitch_isSome hop a b
    · simpa [foldConstants, hL, hR] using foldBinop_isSome hop L R
  | FunctionCall name a iha =>
    intro h
    simp only [wellFormed, Bool.and_eq_true] at h
    obtain ⟨hea, hfa⟩ := iha h.2
    obtain ⟨c, hc⟩ := Option.isSome_iff_exists.mp hea
    obtain ⟨A, hA⟩ := Option.isSome_iff_exists.mp hfa
    exact ⟨by simp [evaluate, hc], by simp [foldConstants, hA]⟩
  | Variable n => intro _; exact ⟨rfl, rfl⟩

/-- C6: constructing a `BinaryOp` with an absent child fails with
`InvalidOperand`; constructing a `Call` with a name outside
`{"sqrt", "abs"}` fails with `UnsupportedFunction`, and with an absent
argument with `InvalidOperand` (the argument check comes first); these two
are the only error kinds; and on well-formed trees `evaluate` and the two
transforms produce values, raising nothing (`copySyntaxTree` is total by
type). -/
theorem construction_errors :
    (∀ (op : Int) (r : Option Expression),
        mkBinaryOperation none op r = Except.error ConstructError.invalidOperand)
    ∧ (∀ (l : Option Expression) (op : Int),
        mkBinaryOperation l op none = Except.error ConstructError.invalidOperand)
    ∧ (∀ (name : String) (a : Expression), name ≠ "sqrt" → name ≠ "abs" →
        mkFunctionCall name (some a) = Except.error ConstructError.unsupportedFunction)
    ∧ (∀ name : String, mkFunctionCall name none = Except.error ConstructError.invalidOperand)
    ∧ (∀ e : ConstructError,
        e = ConstructError.invalidOperand ∨ e = ConstructError.unsupportedFunction)
    ∧ (∀ t : Expression, wellFormed t = true →
        (evaluate t).isSome = true ∧ (foldConstants t).isSome = true) := by
  refine ⟨fun op r => rfl, fun l op => ?_, fun name a h1 h2 => ?_, fun name => rfl,
    fun e => ?_, wellFormed_total⟩
  · cases l <;> rfl
  · simp [mkFunctionCall, h1, h2]
  · cases e
    · exact Or.inl rfl
    · exact Or.inr rfl

/-- Witness for C6 at concrete inputs: `Call("log", Literal 2)` is rejected as
an unsupported function. -/
theorem construction_errors_witness :
    mkFunctionCall "log" (some (Number 2)) = Except.error ConstructError.unsupportedFunction :=
  construction_errors.2.2.1 "log" (Number 2) (by decide) (by decide)

/-- C9: `BinaryOp(Literal 1.234, Divide, Literal (-1.234))` evaluates to
exactly `-1.0`; division applies the value domain's division to the two
child values, with no zero-check anywhere in `evaluate` — a division by zero
still produces a value rather than an error.  (The embedding maps `double`
to `ℝ`, so the IEEE `±inf`/`NaN` payload of a zero denominator is outside
the model; what is provable is that evaluation applies `/` directly and
never rejects a zero denominator.) -/
theorem divide_semantics :
    evaluate (BinaryOperation (Number 1.234) DIV (Number (-1.234))) = some (-1)
    ∧ (∀ a b : ℝ, evaluate (BinaryOperation (Number a) DIV (Number b)) = some (a / b))
    ∧ (∀ a : ℝ, (evaluate (BinaryOperation (Number a) DIV (Number 0))).isSome = true) := by
  refine ⟨?_, fun a b => ?_, fun a => ?_⟩
  · simp [evaluate, evalOpSwitch, PLUS, MINUS, DIV, MUL]
    norm_num
  · simp [evaluate, evalOpSwitch, PLUS, MINUS, DIV, MUL]
  · simp [evaluate, evalOpSwitch, PLUS, MINUS, DIV, MUL]

/-- C10: the `BinaryOperation` constructor stores any `Int` operator tag
without validating it, and for a tag outside the four enum values the
`switch` in `evaluate` falls off the end of the function without returning a
value (modelled as `none`): evaluation of such a node is undefined rather
than rejected at construction. -/
theorem binaryOperation_op_unchecked :
    (∀ (l : Expression) (op : Int) (r : Expression),
        mkBinaryOperation (some l) op (some r) = Except.ok (BinaryOperation l op r))
    ∧ (∀ (op : Int) (a b : ℝ), validOp op = false →
        evalOpSwitch op a b = none
        ∧ evaluate (BinaryOperation (Number a) op (Number b)) = none) := by
  refine ⟨fun l op r => rfl, fun op a b h => ?_⟩
  simp only [validOp, Bool.or_eq_false_iff, beq_eq_false_iff_ne, ne_eq] at h
  obtain ⟨⟨⟨h1, h2⟩, h3⟩, h4⟩ := h
  constructor
  · simp [evalOpSwitch, h1, h2, h3, h4]
  · simp [evaluate, evalOpSwitch, h1, h2, h3, h4]

end LR6
